import Mathlib

/-
Verification of the logie leveled-logging library (src/logie.go).

The Go source is shallowly embedded: pure fragments become Lean functions,
the stateful record/pool/sink pipeline becomes explicit state passing on a
`LoggerState`, machine integers become `Nat` (no arithmetic here ever nears
an overflow: levels are 0..6 and line numbers are small), and the ambient
effects (wall clock, `runtime.Caller`) are passed in as an explicit `Env`.
Log arguments (`...interface{}` in Go) are modelled as strings, the only
argument type exercised by the library's own test and examples; `fmt.Sprint`
over string operands concatenates them with no separator.
-/

namespace Logie

/-- Go: `type Level uint8` with the seven constants declared by `iota`,
`TraceLevel = 0` through `FatalLevel = 6`. -/
inductive Level where
  | TraceLevel
  | DebugLevel
  | InfoLevel
  | WarnLevel
  | ErrorLevel
  | PanicLevel
  | FatalLevel
deriving DecidableEq, Repr, Fintype

/-- The `uint8` ordinal of a level, as fixed by the `iota` declaration order. -/
def levelOrd : Level → Nat
  | .TraceLevel => 0
  | .DebugLevel => 1
  | .InfoLevel => 2
  | .WarnLevel => 3
  | .ErrorLevel => 4
  | .PanicLevel => 5
  | .FatalLevel => 6

/-- Go: `var LevelMapping = map[Level]string{...}`, the ordinal-to-name table. -/
def LevelMapping : Level → String
  | .TraceLevel => "Trace"
  | .DebugLevel => "Debug"
  | .InfoLevel => "Info"
  | .WarnLevel => "Warn"
  | .ErrorLevel => "Error"
  | .PanicLevel => "Panic"
  | .FatalLevel => "Fatal"

/-- Go: `const FmtEmptySeparate = ""`. -/
def FmtEmptySeparate : String := ""

/-- Model of `bytes.ToLower` as used on the seven canonical level names:
per-character lowercasing (`Char.toLower` lowercases exactly ASCII
letters, which covers every string the codec recognises). -/
def bytesToLower (s : String) : String :=
  ⟨s.data.map Char.toLower⟩

/-- The match table of `Level.unmarshalText` (src/logie.go:395-415): the Go
`switch` lists, for each level, its lowercase and capitalised name and
assigns the level on a hit; the first matching entry wins, `nil` on miss. -/
def levelTable : List (String × Level) :=
  [("trace", .TraceLevel), ("Trace", .TraceLevel),
   ("debug", .DebugLevel), ("Debug", .DebugLevel),
   ("info", .InfoLevel), ("Info", .InfoLevel),
   ("warn", .WarnLevel), ("Warn", .WarnLevel),
   ("error", .ErrorLevel), ("Error", .ErrorLevel),
   ("panic", .PanicLevel), ("Panic", .PanicLevel),
   ("fatal", .FatalLevel), ("Fatal", .FatalLevel)]

/-- Go: `func (l *Level) unmarshalText(text []byte) bool` — returns the level
selected by the `switch`, or `none` when the text matches no case (the Go
method then returns `false` and leaves `*l` untouched). -/
def unmarshalTextMatch (s : String) : Option Level :=
  levelTable.lookup s

/-- The two failure kinds of `Level.UnmarshalText`:
`nilLevel` models `errUnmarshalNilLevel` (src/logie.go:393) and
`unexpected text` models `fmt.Errorf("unexpected level: %q", text)`,
which embeds the offending input text in the error. -/
inductive UnmarshalError where
  | nilLevel
  | unexpected (text : String)
deriving DecidableEq, Repr

/-- Go: `func (l *Level) UnmarshalText(text []byte) error`
(src/logie.go:417-426).  A `nil` receiver is modelled as `none`; on success
the decoded level is returned in place of the Go in-place assignment.  The
source tries the text verbatim and, only when that fails, retries after
`bytes.ToLower` (the `&&` short-circuits). -/
def Level.UnmarshalText : Option Level → String → Except UnmarshalError Level
  | none, _ => .error .nilLevel
  | some _, text =>
    match unmarshalTextMatch text with
    | some lvl => .ok lvl
    | none =>
      match unmarshalTextMatch (bytesToLower text) with
      | some lvl => .ok lvl
      | none => .error (.unexpected text)

/-- Whether `UnmarshalText` (with a non-nil receiver) accepts the text:
either pass of the switch hits. -/
def recognizedLevelText (s : String) : Bool :=
  (unmarshalTextMatch s).isSome || (unmarshalTextMatch (bytesToLower s)).isSome

/-- Concatenation of a list of strings (no separator). -/
def concatStrings : List String → String
  | [] => ""
  | s :: rest => s ++ concatStrings rest

/-- Model of `fmt.Sprint(args...)` over string operands: `fmt` inserts a
space only between two operands of which neither is a string, so string
operands are concatenated with no separator. -/
def sprint (args : List String) : String :=
  concatStrings args

/-- Go `fmt`'s annotation for surplus arguments, `%!(EXTRA string=a, ...)`. -/
def extraArgs (args : List String) : String :=
  "%!(EXTRA " ++ String.intercalate ", " (args.map (fun a => "string=" ++ a)) ++ ")"

/-- Model of `fmt.Sprintf` restricted to string arguments: `%s` and `%v`
substitute the next argument, `%%` emits a percent sign, a missing argument
yields fmt's `%!v(MISSING)` annotation, a surplus argument fmt's
`%!(EXTRA ...)` annotation, and any other verb consumes its argument under a
`%!x(string=...)` annotation.  No claim depends on the annotation paths. -/
def sprintfAux : List Char → List String → String
  | [], [] => ""
  | [], a :: rest => extraArgs (a :: rest)
  | ['%'], _ => "%!(NOVERB)"
  | '%' :: verb :: rest, args =>
    if verb = 's' ∨ verb = 'v' then
      match args with
      | [] => "%!" ++ String.singleton verb ++ "(MISSING)" ++ sprintfAux rest []
      | a :: more => a ++ sprintfAux rest more
    else if verb = '%' then
      "%" ++ sprintfAux rest args
    else
      match args with
      | [] => "%!" ++ String.singleton verb ++ "(MISSING)" ++ sprintfAux rest []
      | a :: more =>
        "%!" ++ String.singleton verb ++ "(string=" ++ a ++ ")" ++ sprintfAux rest more
  | c :: rest, args => String.singleton c ++ sprintfAux rest args

/-- Model of `fmt.Sprintf(format, args...)` over string arguments. -/
def sprintf (format : String) (args : List String) : String :=
  sprintfAux format.data args

/-- Lowercase hexadecimal digit, for JSON control-character escapes. -/
def hexDigitChar (n : Nat) : Char :=
  if n < 10 then Char.ofNat (48 + n) else Char.ofNat (87 + n)

/-- JSON escaping of one character as performed by the jsoniter encoder in
its default configuration: quote, backslash, the common control characters,
HTML-unsafe characters as `\u00..`, everything else verbatim. -/
def jsonEscapeChar (c : Char) : String :=
  if c = '"' then "\\\""
  else if c = '\\' then "\\\\"
  else if c = '\n' then "\\n"
  else if c = '\r' then "\\r"
  else if c = '\t' then "\\t"
  else if c = '<' then "\\u003c"
  else if c = '>' then "\\u003e"
  else if c = '&' then "\\u0026"
  else if c.toNat < 32 then
    "\\u00" ++ String.singleton (hexDigitChar (c.toNat / 16))
            ++ String.singleton (hexDigitChar (c.toNat % 16))
  else String.singleton c

/-- JSON serialization of a string value: quoted and escaped. -/
def jsonQuoteString (s : String) : String :=
  "\"" ++ concatStrings (s.data.map jsonEscapeChar) ++ "\""

/-- JSON serialization of a string-valued object, keys in list order,
terminated by the `Encode` record separator `\n`.  (Go map iteration order
is unspecified; the model fixes insertion order.  No claim depends on the
key order.) -/
def encodeJSONObject (m : List (String × String)) : String :=
  "\x7b" ++ String.intercalate ","
      (m.map (fun kv => jsonQuoteString kv.1 ++ ":" ++ jsonQuoteString kv.2))
    ++ "\x7d\n"

/-- Go map assignment `m[k] = v`: replace the binding if the key is present,
otherwise add it. -/
def mapInsert (m : List (String × String)) (k v : String) : List (String × String) :=
  match m with
  | [] => [(k, v)]
  | (k', v') :: rest => if k' = k then (k, v) :: rest else (k', v') :: mapInsert rest k v

/-- Go: `type Entry struct` (src/logie.go:205-216).  The `logger`
back-reference is replaced by explicit state passing; `Buf` is the byte
buffer's contents, `Map` the `map[string]interface{}` as an association
list (the JSON formatter only ever stores strings in it), `Time` the
wall-clock stamp already in its RFC 3339 rendering (the only form the
formatters consume). -/
structure Entry where
  Buf : String
  Map : List (String × String)
  Level : Level
  Time : String
  File : String
  Line : Nat
  Func : String
  Format : String
  Args : List String
deriving DecidableEq, Repr

/-- Go: `func entry(logger *Logger) *Entry` — a freshly allocated record
with empty buffer and mapping and zero-valued fields. -/
def entry : Entry :=
  { Buf := "", Map := [], Level := .TraceLevel, Time := "", File := "",
    Line := 0, Func := "", Format := "", Args := [] }

/-- Go: `type TextFormatter struct { IgnoreBasicFields bool }`. -/
structure TextFormatter where
  IgnoreBasicFields : Bool
deriving DecidableEq, Repr

/-- Go: `type JSONFormatter struct { IgnoreBasicFields bool }`. -/
structure JSONFormatter where
  IgnoreBasicFields : Bool
deriving DecidableEq, Repr

/-- The `for i := len(e.File)-1; i > 0; i--` scan of `TextFormatter.Format`:
the greatest index in `[1, n-1]` holding `'/'`, if any (index 0 is
deliberately excluded by the source's `i > 0` bound). -/
def findSlashDown (s : List Char) : Nat → Option Nat
  | 0 => none
  | n + 1 => if s.getD (n + 1) ' ' = '/' then some (n + 1) else findSlashDown s n

/-- The `short` basename computed by `TextFormatter.Format`
(src/logie.go:278-286): everything after the last `'/'` at index ≥ 1, or
the whole path when no such slash exists. -/
def shortFile (file : String) : String :=
  match findSlashDown file.data (file.data.length - 1) with
  | some i => ⟨file.data.drop (i + 1)⟩
  | none => file

/-- The message-construction rule shared by both formatters
(src/logie.go:291-296 and 315-320): concatenated arguments for the empty
template, positional substitution otherwise. -/
def messageOf (e : Entry) : String :=
  if e.Format = FmtEmptySeparate then sprint e.Args else sprintf e.Format e.Args

/-- Go: `func (f *TextFormatter) Format(e *Entry) error`
(src/logie.go:275-300).  Writes into the record's own buffer; the returned
error is always `nil` in the source, so the model returns the updated
record. -/
def TextFormatter.Format (f : TextFormatter) (e : Entry) : Entry :=
  let e1 :=
    if !f.IgnoreBasicFields then
      let buf1 := e.Buf ++ (e.Time ++ " " ++ LevelMapping e.Level)
      let buf2 :=
        if e.File ≠ "" then
          buf1 ++ (" " ++ shortFile e.File ++ ":" ++ toString e.Line)
        else buf1
      { e with Buf := buf2 ++ " " }
    else e
  { e1 with Buf := e1.Buf ++ messageOf e1 ++ "\n" }

/-- Go: `func (f *JSONFormatter) Format(e *Entry) error`
(src/logie.go:306-337).  The per-argument `Encode` loop of the
ignore-basic-fields path is a left fold over the arguments, each `Encode`
appending the JSON value and its trailing `\n`; string encoding never
fails, so the loop's early `return err` is unreachable in the model. -/
def JSONFormatter.Format (f : JSONFormatter) (e : Entry) : Entry :=
  if !f.IgnoreBasicFields then
    let m1 := mapInsert e.Map "level" (LevelMapping e.Level)
    let m2 := mapInsert m1 "time" e.Time
    let m3 :=
      if e.File ≠ "" then
        mapInsert (mapInsert m2 "file" (e.File ++ ":" ++ toString e.Line)) "func" e.Func
      else m2
    let m4 := mapInsert m3 "message" (messageOf e)
    { e with Map := m4, Buf := e.Buf ++ encodeJSONObject m4 }
  else
    if e.Format = FmtEmptySeparate then
      { e with Buf := e.Args.foldl (fun b a => b ++ jsonQuoteString a ++ "\n") e.Buf }
    else
      { e with Buf := e.Buf ++ sprintf e.Format e.Args }

/-- The `Formatter` interface with its two implementations. -/
inductive Formatter where
  | text (f : TextFormatter)
  | json (f : JSONFormatter)
deriving DecidableEq, Repr

/-- Dynamic dispatch of `Formatter.Format`. -/
def Formatter.run : Formatter → Entry → Entry
  | .text f, e => f.Format e
  | .json f, e => f.Format e

/-- Go: `type options struct` (src/logie.go:339-345).  The destination
`position io.Writer` is modelled as the sink inside `LoggerState` (the
bytes written to it are what the claims observe), so it does not appear
here; `initOptions` guarantees a non-nil formatter, folded into the
default below. -/
structure options where
  level : Level
  stdLevel : Level
  formatter : Formatter
  enableCaller : Bool
deriving DecidableEq, Repr

/-- The configuration produced by `initOptions()` with no options applied:
Go zero values for the levels and the caller flag, and the `TextFormatter`
default installed by the nil check (src/logie.go:357-359). -/
def defaultOptions : options :=
  { level := .TraceLevel, stdLevel := .TraceLevel,
    formatter := .text { IgnoreBasicFields := false }, enableCaller := false }

/-- Go: `func initOptions(opts ...Option) *options` — apply the mutators in
order over the defaults (later options override earlier ones). -/
def initOptions (opts : List (options → options)) : options :=
  opts.foldl (fun o f => f o) defaultOptions

/-- Go: `func WithLevel(lvl Level) Option`. -/
def WithLevel (lvl : Level) : options → options :=
  fun o => { o with level := lvl }

/-- Go: `func WithStdLevel(lvl Level) Option`. -/
def WithStdLevel (lvl : Level) : options → options :=
  fun o => { o with stdLevel := lvl }

/-- Go: `func WithFormatter(fmt Formatter) Option`. -/
def WithFormatter (f : Formatter) : options → options :=
  fun o => { o with formatter := f }

/-- Go: `func WithEnableCaller(caller bool) Option` (src/logie.go:387-391). -/
def WithEnableCaller (caller : Bool) : options → options :=
  fun o => { o with enableCaller := caller }

/-- The result of `runtime.Caller(2)` when it succeeds: source file, line,
and (via `runtime.FuncForPC`) the function name. -/
structure CallerInfo where
  file : String
  line : Nat
  func : String
deriving DecidableEq, Repr

/-- The ambient effects read by one call: the wall clock (already in its
RFC 3339 rendering, the only form the formatters consume) and the caller
resolution (`none` models `runtime.Caller` returning `ok == false`). -/
structure Env where
  now : String
  caller : Option CallerInfo
deriving DecidableEq, Repr

/-- Go: `e.Func = e.Func[strings.LastIndex(e.Func, "/")+1:]`
(src/logie.go:242) — the function name after its last slash (the whole
name when there is none; `LastIndex` returns `-1` then). -/
def trimFuncName (s : String) : String :=
  ⟨(s.data.reverse.takeWhile (fun c => c ≠ '/')).reverse⟩

/-- Go: `func (e *Entry) release()` (src/logie.go:261-265): clear `Args`,
`Line`, `File`, `Format`, `Func`, reset the buffer.  (`Map`, `Level` and
`Time` are not touched by the source.)  The `entryPool.Put` itself is done
by the caller in this model (`Logger.log`). -/
def Entry.release (e : Entry) : Entry :=
  { e with Args := [], Line := 0, File := "", Format := "", Func := "", Buf := "" }

/-- The outcome of `Entry.write` on one record: the record as the method
leaves it, the bytes handed to the destination by `e.writer()` (`none`
when the severity gate fired and nothing was flushed), and whether
`e.release()` ran (the source skips it on the gate's early return). -/
structure WriteResult where
  entry : Entry
  flushed : Option String
  released : Bool
deriving DecidableEq, Repr

/-- Go: `func (e *Entry) write(lvl Level, format string, args ...interface{})`
(src/logie.go:226-249).  Gate, then populate, then — only when
`enableCaller` is NOT set (the source's `if !e.logger.opt.enableCaller`,
marked `// TODO`) — capture the caller, then format, flush and release. -/
def Entry.write (opt : options) (env : Env) (e : Entry) (lvl : Logie.Level)
    (format : String) (args : List String) : WriteResult :=
  if levelOrd opt.level > levelOrd lvl then
    { entry := e, flushed := none, released := false }
  else
    let e1 := { e with Time := env.now, Level := lvl, Format := format, Args := args }
    let e2 :=
      if !opt.enableCaller then
        match env.caller with
        | none => { e1 with File := "unknown", Func := "unknown" }
        | some c => { e1 with File := c.file, Line := c.line, Func := trimFuncName c.func }
      else e1
    let e3 := Formatter.run opt.formatter e2
    { entry := e3.release, flushed := some e3.Buf, released := true }

/-- The logger's mutable surroundings: its configuration, the records
sitting idle in `entryPool`, and the destination sink as the list of byte
chunks written to it, one per `position.Write` call, in order. -/
structure LoggerState where
  opt : options
  pool : List Entry
  sink : List String
deriving DecidableEq, Repr

/-- Go: `l.entryPool.Get()` — hand out an idle record, or allocate a fresh
one via the pool's `New` when none is idle. -/
def acquireEntry : List Entry → Entry × List Entry
  | [] => (entry, [])
  | e :: rest => (e, rest)

/-- The common body of every leveled call,
`l.entry().write(lvl, format, args...)`: acquire a record, run
`Entry.write`, return the released record to the pool (only when `write`
released it — the gate path drops the record), and append the flushed
bytes to the sink. -/
def Logger.log (st : LoggerState) (env : Env) (lvl : Level)
    (format : String) (args : List String) : LoggerState :=
  let p := acquireEntry st.pool
  let r := Entry.write st.opt env p.1 lvl format args
  { st with
    pool := if r.released then p.2 ++ [r.entry] else p.2,
    sink := st.sink ++ r.flushed.toList }

/-- How control leaves a logging method: normally, by `panic`, or by
`os.Exit`. -/
inductive Control where
  | normal
  | panicked (msg : String)
  | exited (code : Nat)
deriving DecidableEq, Repr

/-- Go: `func (l *Logger) Debug(args ...interface{})`. -/
def Logger.Debug (st : LoggerState) (env : Env) (args : List String) : LoggerState :=
  Logger.log st env .DebugLevel FmtEmptySeparate args

/-- Go: `func (l *Logger) Info(args ...interface{})`. -/
def Logger.Info (st : LoggerState) (env : Env) (args : List String) : LoggerState :=
  Logger.log st env .InfoLevel FmtEmptySeparate args

/-- Go: `func (l *Logger) Panic(args ...interface{})` (src/logie.go:116-119):
run the pipeline at `PanicLevel`, then `panic(fmt.Sprint(args...))`. -/
def Logger.Panic (st : LoggerState) (env : Env) (args : List String) :
    LoggerState × Control :=
  (Logger.log st env .PanicLevel FmtEmptySeparate args, .panicked (sprint args))

/-- Go: `func (l *Logger) Panicf(format string, args ...interface{})`
(src/logie.go:142-145): the pipeline at `PanicLevel`, then
`panic(fmt.Sprintf(format, args...))`. -/
def Logger.Panicf (st : LoggerState) (env : Env) (format : String)
    (args : List String) : LoggerState × Control :=
  (Logger.log st env .PanicLevel format args, .panicked (sprintf format args))

/-- Go: `func (l *Logger) Fatal(args ...interface{})` (src/logie.go:121-124):
the pipeline at `FatalLevel`, then `os.Exit(1)`. -/
def Logger.Fatal (st : LoggerState) (env : Env) (args : List String) :
    LoggerState × Control :=
  (Logger.log st env .FatalLevel FmtEmptySeparate args, .exited 1)

/-- The `(int, error)` returned by `Logger.Write`; a `nil` error is `none`. -/
structure WriteReturn where
  n : Nat
  err : Option String
deriving DecidableEq, Repr

/-- Go: `func (l *Logger) Write(data []byte) (int, error)`
(src/logie.go:91-94): feed the bytes, reinterpreted as a string, through
the pipeline as a single argument at the configured `stdLevel` with no
template, and return `0, nil` unconditionally. -/
def Logger.WriteBytes (st : LoggerState) (env : Env) (data : String) :
    LoggerState × WriteReturn :=
  (Logger.log st env st.opt.stdLevel FmtEmptySeparate [data], { n := 0, err := none })

/-- Number of consecutive `'\n'` characters at the front of a character list. -/
def leadNL : List Char → Nat
  | [] => 0
  | c :: rest => if c = '\n' then leadNL rest + 1 else 0

/-- Number of consecutive `'\n'` characters at the end of a character list:
the output "ends with exactly one newline" when this is 1. -/
def trailingNewlines (s : List Char) : Nat :=
  leadNL s.reverse

/-- The basic-fields prefix the text formatter writes before the message:
timestamp, severity name, optional `basename:line`, one trailing space —
or nothing when `IgnoreBasicFields` is set. -/
def textPrefix (f : TextFormatter) (e : Entry) : String :=
  if !f.IgnoreBasicFields then
    (e.Time ++ " " ++ LevelMapping e.Level) ++
      (if e.File ≠ "" then " " ++ shortFile e.File ++ ":" ++ toString e.Line else "") ++ " "
  else ""

/-- A concrete environment: a fixed clock reading and a resolvable caller. -/
def envC : Env :=
  { now := "2024-01-02T03:04:05Z",
    caller := some { file := "/a/b.go", line := 42, func := "github.com/i0Ek3/logie.fn" } }

/-- A concrete environment in which `runtime.Caller` fails. -/
def envNone : Env :=
  { now := "2024-01-02T03:04:05Z", caller := none }

/-- A logger configured with minimum severity `Info`, one idle pooled record. -/
def stInfoGate : LoggerState :=
  { opt := initOptions [WithLevel .InfoLevel], pool := [entry], sink := [] }

/-- A logger with caller capture enabled, one idle pooled record. -/
def stCallerOn : LoggerState :=
  { opt := initOptions [WithEnableCaller true], pool := [entry], sink := [] }

/-- A logger with all-default options, one idle pooled record. -/
def stDefault : LoggerState :=
  { opt := initOptions [], pool := [entry], sink := [] }

/-- A logger using the JSON formatter with basic fields included, one idle
pooled record. -/
def stJSON : LoggerState :=
  { opt := initOptions [WithFormatter (.json { IgnoreBasicFields := false })],
    pool := [entry], sink := [] }

/-- A record populated with a single argument that itself ends in a newline. -/
def entryNLArg : Entry :=
  { entry with Args := ["a\n"] }

/-- A successful `List.lookup` result is a member of the table. -/
theorem lookup_mem {α β : Type} [DecidableEq α] {a : α} {b : β} :
    ∀ {l : List (α × β)}, l.lookup a = some b → (a, b) ∈ l
  | [], h => by simp [List.lookup] at h
  | (k, v) :: rest, h => by
    by_cases hk : a = k
    · subst hk
      simp [List.lookup] at h
      simp [h]
    · have hbeq : (a == k) = false := beq_eq_false_iff_ne.mpr hk
      simp only [List.lookup, hbeq] at h
      exact List.mem_cons_of_mem _ (lookup_mem h)

/-- Any text the verbatim switch accepts lowercases to the lowercased
canonical name of the level it selects. -/
theorem unmarshalTextMatch_lower {s : String} {lvl : Level}
    (h : unmarshalTextMatch s = some lvl) :
    bytesToLower s = bytesToLower (LevelMapping lvl) := by
  have hm : (s, lvl) ∈ levelTable := lookup_mem h
  have hall : ∀ p ∈ levelTable, bytesToLower p.1 = bytesToLower (LevelMapping p.2) := by
    decide
  exact hall (s, lvl) hm

/-- The switch accepts the lowercased canonical name of every level. -/
theorem unmarshalTextMatch_lowerName (lvl : Level) :
    unmarshalTextMatch (bytesToLower (LevelMapping lvl)) = some lvl := by
  cases lvl <;> rfl

/-- Distinct levels have distinct lowercased canonical names. -/
theorem lowerName_inj : ∀ l1 l2 : Level,
    bytesToLower (LevelMapping l1) = bytesToLower (LevelMapping l2) → l1 = l2 := by
  decide

/-- C1: for a leveled call whose severity is strictly below the configured
minimum, `Entry.write` does terminate at the gate without capture,
formatting or flushing — but, contrary to the claim, the source returns
without `release`/`Put`, so the acquired record is dropped and the pool
shrinks.  Evaluation at the failing input: minimum severity `Info`, a
`Debug` call, one idle pooled record: nothing reaches the sink, the record
comes back untouched and unreleased, and the pool goes from one record to
none. -/
theorem c1_gate_drops_record :
    Entry.write stInfoGate.opt envC entry .DebugLevel FmtEmptySeparate ["x"] =
      { entry := entry, flushed := none, released := false } ∧
    (Logger.log stInfoGate envC .DebugLevel FmtEmptySeparate ["x"]).sink = [] ∧
    stInfoGate.pool.length = 1 ∧
    (Logger.log stInfoGate envC .DebugLevel FmtEmptySeparate ["x"]).pool = [] := by
  decide

/-- C2: the source's capture condition is `if !e.logger.opt.enableCaller`,
the inverse of the claim.  Evaluation at the failing input: with caller
capture enabled and a resolvable caller, the emitted line carries no
call-site metadata; with the flag at its disabled default the metadata
(and, on resolution failure, the "unknown" sentinel) does appear. -/
theorem c2_caller_capture_inverted :
    (Logger.Info stCallerOn envC ["x"]).sink = ["2024-01-02T03:04:05Z Info x\n"] ∧
    (Logger.Info stDefault envC ["x"]).sink =
      ["2024-01-02T03:04:05Z Info b.go:42 x\n"] ∧
    (Logger.Info stDefault envNone ["x"]).sink =
      ["2024-01-02T03:04:05Z Info unknown:0 x\n"] := by
  decide

/-- C3 counterexample: after a fully processed call under the JSON
formatter (basic fields included), the record re-enters the pool with a
non-empty key-value mapping — `release` never clears `Map`. -/
theorem c3_map_not_cleared :
    ((Logger.Info stJSON envC ["x"]).pool.all fun e2 => e2.Map.isEmpty) = false ∧
    (Logger.Info stJSON envC ["x"]).pool.map Entry.Map =
      [[("level", "Info"), ("time", "2024-01-02T03:04:05Z"), ("file", "/a/b.go:42"),
        ("func", "logie.fn"), ("message", "x")]] := by
  decide

/-- C3 (amended): `release` resets the buffer and clears the arguments,
file, line, function and format fields before the record re-enters the
pool, but leaves the key-value mapping (and severity and timestamp)
untouched, so a mapping populated by the JSON formatter persists into the
record's next acquisition. -/
theorem c3_release_clears_all_but_map (e : Entry) :
    e.release.Buf = "" ∧ e.release.Args = [] ∧ e.release.File = "" ∧
    e.release.Line = 0 ∧ e.release.Func = "" ∧ e.release.Format = "" ∧
    e.release.Map = e.Map ∧ e.release.Level = e.Level ∧ e.release.Time = e.Time :=
  ⟨rfl, rfl, rfl, rfl, rfl, rfl, rfl, rfl, rfl⟩

/-- C4: a call strictly below the configured minimum severity appends
nothing to the destination sink; a call at or above it appends exactly one
chunk (one `position.Write` of the rendered record) per call. -/
theorem c4_gate_zero_or_one_chunk (st : LoggerState) (env : Env) (lvl : Level)
    (format : String) (args : List String) :
    if levelOrd st.opt.level > levelOrd lvl
    then (Logger.log st env lvl format args).sink = st.sink
    else ∃ c, (Logger.log st env lvl format args).sink = st.sink ++ [c] := by
  by_cases h : levelOrd st.opt.level > levelOrd lvl
  · rw [if_pos h]
    simp [Logger.log, Entry.write, h]
  · rw [if_neg h]
    simp only [Logger.log, Entry.write]
    rw [if_neg h]
    exact ⟨_, rfl⟩

/-- C5: decoding the encoded name of each of the seven levels yields the
level back, and decode is case-insensitive: any text that lowercases to
the (lowercased) canonical name of a level decodes to that level, because
decode tries the text verbatim and, on failure, retries lowercased. -/
theorem c5_decode_encode_roundtrip (l0 lvl : Level) (s : String)
    (h : bytesToLower s = bytesToLower (LevelMapping lvl)) :
    Level.UnmarshalText (some l0) (LevelMapping lvl) = .ok lvl ∧
    Level.UnmarshalText (some l0) s = .ok lvl := by
  constructor
  · cases lvl <;> rfl
  · cases hm : unmarshalTextMatch s with
    | some l2 =>
      have h2 := unmarshalTextMatch_lower hm
      have hl : l2 = lvl := lowerName_inj l2 lvl (h2.symm.trans h)
      subst hl
      simp [Level.UnmarshalText, hm]
    | none =>
      have h3 : unmarshalTextMatch (bytesToLower s) = some lvl := by
        rw [h]
        exact unmarshalTextMatch_lowerName lvl
      simp [Level.UnmarshalText, hm, h3]

/-- C5 witness: the canonical name of Debug decodes to Debug, and so does
the all-caps casing "DEBUG". -/
theorem c5_witness :
    Level.UnmarshalText (some .TraceLevel) (LevelMapping .DebugLevel) = .ok .DebugLevel ∧
    Level.UnmarshalText (some .TraceLevel) "DEBUG" = .ok .DebugLevel :=
  c5_decode_encode_roundtrip .TraceLevel .DebugLevel "DEBUG" (by decide)

/-- C6: decode against a nil target fails with the dedicated nil-level
error, which is distinct from the unrecognized-text error; unrecognized
text fails with an error carrying exactly the offending input; recognized
text succeeds with no error. -/
theorem c6_decode_error_kinds (l0 : Level) (s : String) :
    Level.UnmarshalText none s = .error .nilLevel ∧
    UnmarshalError.nilLevel ≠ UnmarshalError.unexpected s ∧
    (recognizedLevelText s = false →
      Level.UnmarshalText (some l0) s = .error (.unexpected s)) ∧
    (recognizedLevelText s = true →
      ∃ lvl, Level.UnmarshalText (some l0) s = .ok lvl) := by
  refine ⟨rfl, fun h => UnmarshalError.noConfusion h, fun hrec => ?_, fun hrec => ?_⟩
  · simp only [recognizedLevelText, Bool.or_eq_false_iff] at hrec
    obtain ⟨h1, h2⟩ := hrec
    have e1 : unmarshalTextMatch s = none := by
      cases hm : unmarshalTextMatch s with
      | none => rfl
      | some l2 => rw [hm] at h1; simp at h1
    have e2 : unmarshalTextMatch (bytesToLower s) = none := by
      cases hm : unmarshalTextMatch (bytesToLower s) with
      | none => rfl
      | some l2 => rw [hm] at h2; simp at h2
    simp [Level.UnmarshalText, e1, e2]
  · cases hm : unmarshalTextMatch s with
    | some l2 => exact ⟨l2, by simp [Level.UnmarshalText, hm]⟩
    | none =>
      cases hm2 : unmarshalTextMatch (bytesToLower s) with
      | some l3 => exact ⟨l3, by simp [Level.UnmarshalText, hm, hm2]⟩
      | none =>
        rw [recognizedLevelText, hm, hm2] at hrec
        simp at hrec

/-- C6 witness: "bogus" is rejected (naming the text) with and without a
target; "Info" is accepted. -/
theorem c6_witness :
    Level.UnmarshalText none "bogus" = .error .nilLevel ∧
    Level.UnmarshalText (some .TraceLevel) "bogus" = .error (.unexpected "bogus") ∧
    (∃ lvl, Level.UnmarshalText (some .TraceLevel) "Info" = .ok lvl) :=
  ⟨(c6_decode_error_kinds .TraceLevel "bogus").1,
   (c6_decode_error_kinds .TraceLevel "bogus").2.2.1 (by decide),
   (c6_decode_error_kinds .TraceLevel "Info").2.2.2 (by decide)⟩

/-- The text formatter's buffer decomposes as previous contents, then the
basic-fields prefix, then the message, then one appended newline. -/
theorem textFormat_buf (f : TextFormatter) (e : Entry) :
    (f.Format e).Buf = e.Buf ++ textPrefix f e ++ messageOf e ++ "\n" := by
  by_cases hb : f.IgnoreBasicFields = true
  · simp [TextFormatter.Format, textPrefix, hb, messageOf]
  · by_cases hf : e.File = ""
    · simp [TextFormatter.Format, textPrefix, hb, hf, messageOf, String.append_assoc]
    · simp [TextFormatter.Format, textPrefix, hb, hf, messageOf, String.append_assoc]

/-- Appending a newline increments the trailing-newline count by one. -/
theorem trailingNewlines_append_nl (xs : List Char) :
    trailingNewlines (xs ++ ['\n']) = trailingNewlines xs + 1 := by
  simp [trailingNewlines, List.reverse_append, leadNL]

/-- C7 counterexample: a record whose single argument ends in a newline
renders (ignore-basic-fields text formatter) to "a\n\n" — the output does
not end with exactly one newline. -/
theorem c7_two_trailing_newlines :
    (TextFormatter.Format { IgnoreBasicFields := true } entryNLArg).Buf = "a\n\n" ∧
    trailingNewlines ((TextFormatter.Format { IgnoreBasicFields := true }
      entryNLArg).Buf).data = 2 := by
  decide

/-- C7 (amended): the text formatter writes the basic-fields prefix (when
enabled), the rendered message, and then exactly one newline, so the
output always ends in a newline and contains the rendered message; the
trailing-newline count of the output exceeds that of the content before
the appended newline by exactly one — in particular the output ends with
exactly one newline whenever the rendered message does not itself end in
one. -/
theorem c7_text_output_shape (f : TextFormatter) (e : Entry) :
    (f.Format e).Buf = e.Buf ++ textPrefix f e ++ messageOf e ++ "\n" ∧
    (messageOf e).data <:+: ((f.Format e).Buf).data ∧
    ['\n'] <:+ ((f.Format e).Buf).data ∧
    trailingNewlines ((f.Format e).Buf).data =
      trailingNewlines (e.Buf ++ textPrefix f e ++ messageOf e).data + 1 := by
  have hbuf := textFormat_buf f e
  refine ⟨hbuf, ?_, ?_, ?_⟩
  · rw [hbuf]
    refine ⟨(e.Buf ++ textPrefix f e).data, "\n".data, ?_⟩
    simp [String.data_append, List.append_assoc]
  · rw [hbuf]
    refine ⟨(e.Buf ++ textPrefix f e ++ messageOf e).data, ?_⟩
    simp [String.data_append]
  · rw [hbuf]
    have hdata : ((e.Buf ++ textPrefix f e ++ messageOf e) ++ "\n").data
        = (e.Buf ++ textPrefix f e ++ messageOf e).data ++ ['\n'] := by
      simp [String.data_append]
    rw [hdata]
    exact trailingNewlines_append_nl _

/-- The per-argument `Encode` loop equals the concatenation of the encoded
values in argument order. -/
theorem foldl_encode_eq :
    ∀ (xs : List String) (b : String),
      xs.foldl (fun acc a => acc ++ jsonQuoteString a ++ "\n") b
        = b ++ concatStrings (xs.map (fun a => jsonQuoteString a ++ "\n"))
  | [], b => by simp [concatStrings]
  | x :: xs, b => by
    simp only [List.foldl, List.map, concatStrings]
    rw [foldl_encode_eq xs (b ++ jsonQuoteString x ++ "\n")]
    simp [String.append_assoc]

/-- C8: with basic fields excluded, the JSON formatter appends, for the
empty template, each argument as an independent JSON value (each followed
by the encoder's newline separator) in argument order; for a non-empty
template it appends the template-substituted string verbatim, with no JSON
encoding; the mapping is untouched either way. -/
theorem c8_json_ignore_basic (e : Entry) :
    (JSONFormatter.Format { IgnoreBasicFields := true } e).Buf =
      e.Buf ++ (if e.Format = FmtEmptySeparate
        then concatStrings (e.Args.map (fun a => jsonQuoteString a ++ "\n"))
        else sprintf e.Format e.Args) ∧
    (JSONFormatter.Format { IgnoreBasicFields := true } e).Map = e.Map := by
  constructor
  · by_cases hf : e.Format = FmtEmptySeparate
    · simp [JSONFormatter.Format, hf, foldl_encode_eq]
    · simp [JSONFormatter.Format, hf]
  · by_cases hf : e.Format = FmtEmptySeparate <;> simp [JSONFormatter.Format, hf]

/-- C9: a Panic-severity call raises a panic carrying the rendered message
(`fmt.Sprint` of the arguments, or `fmt.Sprintf` for the `Panicf`
variant), never exits the process, and does so after the flush: when the
severity gate passes, exactly one rendered chunk has reached the sink. -/
theorem c9_panic_raises (st : LoggerState) (env : Env) (args : List String)
    (format : String) :
    (Logger.Panic st env args).2 = .panicked (sprint args) ∧
    (∀ n, (Logger.Panic st env args).2 ≠ .exited n) ∧
    (Logger.Panicf st env format args).2 = .panicked (sprintf format args) ∧
    (levelOrd st.opt.level ≤ levelOrd Level.PanicLevel →
      ∃ c, (Logger.Panic st env args).1.sink = st.sink ++ [c]) := by
  refine ⟨rfl, fun n h => Control.noConfusion h, rfl, fun h => ?_⟩
  have hng : ¬ levelOrd st.opt.level > levelOrd Level.PanicLevel := Nat.not_lt.mpr h
  simp only [Logger.Panic, Logger.log, Entry.write]
  rw [if_neg hng]
  exact ⟨_, rfl⟩

/-- C9 witness: a concrete Panic call under default options panics with
the rendered message and flushed one chunk. -/
theorem c9_witness :
    (Logger.Panic stDefault envC ["boom"]).2 = .panicked "boom" ∧
    (∃ c, (Logger.Panic stDefault envC ["boom"]).1.sink = stDefault.sink ++ [c]) := by
  have h := c9_panic_raises stDefault envC ["boom"] ""
  exact ⟨h.1, h.2.2.2 (by decide)⟩

/-- C10: the raw-bytes `Write` adapter returns count 0 and a nil error for
every input, whether the message was gated out (no chunk reaches the sink)
or flushed (one chunk reaches the sink). -/
theorem c10_write_returns_zero_nil (st : LoggerState) (env : Env) (data : String) :
    (Logger.WriteBytes st env data).2 = { n := 0, err := none } ∧
    (if levelOrd st.opt.level > levelOrd st.opt.stdLevel
     then (Logger.WriteBytes st env data).1.sink = st.sink
     else ∃ c, (Logger.WriteBytes st env data).1.sink = st.sink ++ [c]) := by
  refine ⟨rfl, ?_⟩
  by_cases h : levelOrd st.opt.level > levelOrd st.opt.stdLevel
  · rw [if_pos h]
    simp [Logger.WriteBytes, Logger.log, Entry.write, h]
  · rw [if_neg h]
    simp only [Logger.WriteBytes, Logger.log, Entry.write]
    rw [if_neg h]
    exact ⟨_, rfl⟩

end Logie
